import Mathlib

/-!
Shallow embedding of the STOMP `AngularCorrelation` engine
(`stomp_angular_correlation.cc` / `stomp_angular_correlation.h`): angular
binning, the pixel/pair estimator split, automatic resolution selection,
random-iteration rescaling, the output rows and the jack-knife covariance
matrix.

C++ doubles are modelled as exact real numbers.  The `AngularBin` class
lives in `stomp_angular_bin.h` and the basic constants live in
`stomp_core.h`; neither file is part of the sources, so their fields,
setters and the few accessors the correlation code relies on are modelled
from the specification and marked `Modelled from the spec` below.
-/

namespace Stomp

/-- Modelled from the spec: the coarsest tessellation resolution
`HPixResolution` (a constant from `stomp_core.h`, absent from the sources).
Only its positivity matters for the embedded code paths. -/
def HPixResolution : ℕ := 4

/-- Modelled from the spec: the finest pixel resolution `MaxPixelResolution`
(a constant from `stomp_core.h`, absent from the sources). -/
def MaxPixelResolution : ℕ := 32768

/-- Modelled from the spec: one angular bin (`AngularBin` from
`stomp_angular_bin.h`, absent from the sources).  A half-open annulus
`[thetaMin, thetaMax)` with the precomputed `sin²` of its endpoints, a
representative angle `theta`, an assigned pixel resolution (`0` meaning
pair-based) and the accumulators; `wthetaRegion r` is the leave-one-out
jack-knife estimate for region `r`, `wtheta` the overall estimate,
`wthetaError` the Poisson error and `meanWthetaError` the jack-knife error.
Default-constructed field values are not given by the spec and are modelled
as zero. -/
structure AngularBin where
  thetaMin : ℝ := 0
  thetaMax : ℝ := 0
  theta : ℝ := 0
  sin2thetaMin : ℝ := 0
  sin2thetaMax : ℝ := 0
  resolution : ℕ := 0
  galGal : ℝ := 0
  galRand : ℝ := 0
  randGal : ℝ := 0
  randRand : ℝ := 0
  pixelWtheta : ℝ := 0
  pixelWeight : ℝ := 0
  nRegion : ℕ := 0
  wthetaRegion : ℕ → ℝ := fun _ => 0
  wtheta : ℝ := 0
  wthetaError : ℝ := 0
  meanWthetaError : ℝ := 0

/-- Modelled from the spec: `AngularBin::SetThetaMin` stores the lower
endpoint together with its precomputed `sin²` (the angle is in degrees). -/
noncomputable def SetThetaMin (b : AngularBin) (t : ℝ) : AngularBin :=
  { b with thetaMin := t, sin2thetaMin := Real.sin (t * Real.pi / 180) ^ 2 }

/-- Modelled from the spec: `AngularBin::SetThetaMax` stores the upper
endpoint together with its precomputed `sin²` (the angle is in degrees). -/
noncomputable def SetThetaMax (b : AngularBin) (t : ℝ) : AngularBin :=
  { b with thetaMax := t, sin2thetaMax := Real.sin (t * Real.pi / 180) ^ 2 }

/-- Modelled from the spec: `AngularBin::SetTheta` stores the representative
angle of the bin. -/
def SetTheta (b : AngularBin) (t : ℝ) : AngularBin :=
  { b with theta := t }

/-- Modelled from the spec: `AngularBin::SetResolution`. -/
def SetResolution (b : AngularBin) (r : ℕ) : AngularBin :=
  { b with resolution := r }

/-- Modelled from the spec: `AngularBin::MeanWtheta`, the mean of the
per-region leave-one-out estimates over the bin's regions. -/
noncomputable def MeanWtheta (b : AngularBin) : ℝ :=
  (∑ r in Finset.range b.nRegion, b.wthetaRegion r) / b.nRegion

/-- Modelled from the spec: `AngularBin::RescaleGalRand(w)` divides the
galaxy-random accumulator by `w`. -/
noncomputable def RescaleGalRand (k : ℝ) (b : AngularBin) : AngularBin :=
  { b with galRand := b.galRand / k }

/-- Modelled from the spec: `AngularBin::RescaleRandGal(w)` divides the
random-galaxy accumulator by `w`. -/
noncomputable def RescaleRandGal (k : ℝ) (b : AngularBin) : AngularBin :=
  { b with randGal := b.randGal / k }

/-- Modelled from the spec: `AngularBin::RescaleRandRand(w)` divides the
random-random accumulator by `w`. -/
noncomputable def RescaleRandRand (k : ℝ) (b : AngularBin) : AngularBin :=
  { b with randRand := b.randRand / k }

/-- The `AngularCorrelation` object (`stomp_angular_correlation.h`).  The
bin vector `thetabin_` is a list; the four iterators
`theta_pixel_begin_`, `theta_pixel_end_`, `theta_pair_begin_`,
`theta_pair_end_` are indices into that list (`length` plays the role of
`thetabin_.end()`). -/
structure AngularCorrelation where
  thetabin : List AngularBin := []
  pixelBegin : ℕ := 0
  pixelEnd : ℕ := 0
  pairBegin : ℕ := 0
  pairEnd : ℕ := 0
  thetaMin : ℝ := 0
  thetaMax : ℝ := 0
  sin2thetaMin : ℝ := 0
  sin2thetaMax : ℝ := 0
  minResolution : ℕ := HPixResolution
  maxResolution : ℕ := HPixResolution
  regionationResolution : ℕ := 0
  nRegion : ℤ := -1
  manualResolutionBreak : Bool := false

/-- Applies `f` to the elements of a list whose position (counted from the
offset `i`) lies in the half-open index range `[lo, hi)`; embeds the C++
idiom of running an iterator loop from one bin iterator to another. -/
def mapSlice (f : AngularBin → AngularBin) (lo hi : ℕ) : ℕ → List AngularBin → List AngularBin
  | _, [] => []
  | i, b :: bs => (if lo ≤ i ∧ i < hi then f b else b) :: mapSlice f lo hi (i + 1) bs

/-- `AngularCorrelation::AssignBinResolutions` (lines 119-132): recompute
every bin's resolution and track the global minimum and maximum.  The
per-bin computation `AngularBin::CalculateResolution` lives in
`stomp_angular_bin.h` (absent from the sources) and is abstracted as the
parameter `f`. -/
def AssignBinResolutions (f : AngularBin → ℕ) (w : AngularCorrelation) : AngularCorrelation :=
  let bins := w.thetabin.map fun b => SetResolution b (f b)
  { w with
    thetabin := bins
    minResolution := bins.foldl (fun m b => min m b.resolution) MaxPixelResolution
    maxResolution := bins.foldl (fun m b => max m b.resolution) HPixResolution }

/-- `AngularCorrelation::SetMaxResolution` (lines 134-155): every bin whose
computed resolution exceeds the cap has its resolution set to `0` and the
pair range is grown by one for each such bin (net effect of the
`++theta_pixel_begin_; ++theta_pair_end_;` increments: both end up at the
number of exceeding bins); the remaining bins form the pixel range.
`AngularBin::CalculateResolution` is abstracted as `f`. -/
def SetMaxResolution (f : AngularBin → ℕ) (resolution : ℕ) (manualBreak : Bool)
    (w : AngularCorrelation) : AngularCorrelation :=
  let n := w.thetabin.countP fun b => decide (resolution < f b)
  { w with
    maxResolution := resolution
    thetabin := w.thetabin.map fun b =>
      if resolution < f b then SetResolution b 0 else SetResolution b (f b)
    pairBegin := 0
    pairEnd := n
    pixelBegin := n
    pixelEnd := w.thetabin.length
    manualResolutionBreak := if manualBreak then true else w.manualResolutionBreak }

/-- `AngularCorrelation::AutoMaxResolution` (lines 166-187), the cap value:
sequential reassignments of `max_resolution` depending on the object count
and the survey area, starting from `2048`, with the large-area branch
resetting the baseline to `512`. -/
noncomputable def AutoMaxResolutionCap (n_obj : ℕ) (area : ℝ) : ℕ :=
  if 500 < area then
    let r0 := 512
    let r1 := if n_obj < 500000 then 64 else r0
    let r2 := if 500000 < n_obj ∧ n_obj < 2000000 then 128 else r1
    let r3 := if 2000000 < n_obj ∧ n_obj < 10000000 then 256 else r2
    r3
  else
    let r0 := 2048
    let r1 := if n_obj < 500000 then 256 else r0
    let r2 := if 500000 < n_obj ∧ n_obj < 2000000 then 512 else r1
    let r3 := if 2000000 < n_obj ∧ n_obj < 10000000 then 1024 else r2
    r3

/-- `AngularCorrelation::AutoMaxResolution` (line 186): installs the
computed cap through `SetMaxResolution(cap, false)`. -/
noncomputable def AutoMaxResolution (f : AngularBin → ℕ) (n_obj : ℕ) (area : ℝ)
    (w : AngularCorrelation) : AngularCorrelation :=
  SetMaxResolution f (AutoMaxResolutionCap n_obj area) false w

/-- The resolution-selection prefix of
`AngularCorrelation::FindCrossCorrelation` (lines 227-233): when no manual
break is set, `AutoMaxResolution` is invoked with
`n = (uint32_t)sqrt(sizeA*sizeB)` and the smaller of the two map areas. -/
noncomputable def FindCrossCorrelationResStep (f : AngularBin → ℕ) (sizeA sizeB : ℕ)
    (areaA areaB : ℝ) (w : AngularCorrelation) : AngularCorrelation :=
  if w.manualResolutionBreak then w
  else
    AutoMaxResolution f (⌊Real.sqrt ((sizeA : ℝ) * sizeB)⌋₊)
      (if areaB < areaA then areaB else areaA) w

/-- The resolution-selection prefix of
`AngularCorrelation::FindCrossCorrelationWithRegions` (lines 297-301): when
no manual break is set, `AutoMaxResolution` is invoked with
`n = (uint32_t)sqrt(sizeA*sizeB)` and `stomp_map_a.Area()` (the area of the
second map is not consulted). -/
noncomputable def FindCrossCorrelationWithRegionsResStep (f : AngularBin → ℕ) (sizeA sizeB : ℕ)
    (areaA areaB : ℝ) (w : AngularCorrelation) : AngularCorrelation :=
  if w.manualResolutionBreak then w
  else AutoMaxResolution f (⌊Real.sqrt ((sizeA : ℝ) * sizeB)⌋₊) areaA w

/-- Modelled from the spec: `DoubleGE` from `stomp_core.h` (absent from the
sources); per the spec a bin is emitted whenever its left edge is `≥
theta_min`. -/
def DoubleGE (a b : ℝ) : Prop := b ≤ a

/-- The left bin edge visited at step `j` of the log-spaced constructor
(lines 36-49): `theta = 10^(unit_double/B)` with
`unit_double = floor(log10(theta_min))*B + j`. -/
noncomputable def logBinLeftEdge (theta_min B : ℝ) (j : ℕ) : ℝ :=
  (10 : ℝ) ^ (((⌊Real.logb 10 theta_min⌋ : ℝ) * B + j) / B)

/-- The bin emitted at step `j` of the log-spaced constructor (lines 41-45):
`SetThetaMin(theta)`, `SetThetaMax(10^((unit_double+1)/B))`, then
`SetTheta(10^(0.5*(log10 min + log10 max)))`. -/
noncomputable def mkLogBin (theta_min B : ℝ) (j : ℕ) : AngularBin :=
  let b1 := SetThetaMin {} (logBinLeftEdge theta_min B j)
  let b2 := SetThetaMax b1 (logBinLeftEdge theta_min B (j + 1))
  SetTheta b2 ((10 : ℝ) ^ (0.5 * (Real.logb 10 b2.thetaMin + Real.logb 10 b2.thetaMax)))

open Classical in
/-- The bin list produced by the log-spaced constructor
`AngularCorrelation(theta_min, theta_max, bins_per_decade, ...)`
(lines 33-50), given that its `while (theta < theta_max)` loop runs for
exactly `J` iterations: step `j` emits a bin iff
`DoubleGE(theta, theta_min) && theta < theta_max`. -/
noncomputable def logBins (theta_min theta_max B : ℝ) (J : ℕ) : List AngularBin :=
  (List.range J).filterMap fun j =>
    if DoubleGE (logBinLeftEdge theta_min B j) theta_min ∧ logBinLeftEdge theta_min B j < theta_max
    then some (mkLogBin theta_min B j) else none

/-- The log constructor's `while (theta < theta_max)` loop runs for exactly
`J` iterations: the edge stays below `theta_max` for the first `J` steps and
reaches it at step `J`. -/
def logLoopStopsAt (theta_min theta_max B : ℝ) (J : ℕ) : Prop :=
  (∀ j < J, logBinLeftEdge theta_min B j < theta_max) ∧ theta_max ≤ logBinLeftEdge theta_min B J

/-- The bin list produced by the linear constructor
`AngularCorrelation(n_bins, theta_min, theta_max, ...)` (lines 82-90).
Note: faithfully to line 87 of the source, the second setter call is
`SetThetaMin` again (not `SetThetaMax`), so the first assignment is
overwritten and the upper endpoint is never stored. -/
noncomputable def linearBins (n_bins : ℕ) (theta_min theta_max : ℝ) : List AngularBin :=
  let dtheta := (theta_max - theta_min) / n_bins
  (List.range n_bins).map fun i : ℕ =>
    let b1 := SetThetaMin {} (theta_min + (i : ℝ) * dtheta)
    let b2 := SetThetaMin b1 (theta_min + ((i : ℝ) + 1) * dtheta)
    SetTheta b2 (0.5 * (b2.thetaMin + b2.thetaMax))

/-- `AngularCorrelation::UseOnlyPixels` (lines 818-825): reassign bin
resolutions and make the pixel range cover everything, the pair range
empty. -/
def UseOnlyPixels (f : AngularBin → ℕ) (w : AngularCorrelation) : AngularCorrelation :=
  let w1 := AssignBinResolutions f w
  { w1 with
    pixelBegin := 0
    pixelEnd := w1.thetabin.length
    pairBegin := 0
    pairEnd := 0 }

/-- `AngularCorrelation::UseOnlyPairs` (lines 827-838): empty pixel range,
full pair range, every bin's resolution set to `0`, manual break set. -/
def UseOnlyPairs (w : AngularCorrelation) : AngularCorrelation :=
  { w with
    pixelBegin := w.thetabin.length
    pixelEnd := w.thetabin.length
    pairBegin := 0
    pairEnd := w.thetabin.length
    thetabin := w.thetabin.map fun b => SetResolution b 0
    manualResolutionBreak := true }

/-- The regionation-resolution guard shared by
`FindAutoCorrelationWithRegions` (lines 274-280) and
`FindCrossCorrelationWithRegions` (lines 322-328): when the regionation
resolution exceeds the maximum pixel resolution a warning is printed
(the boolean) and the engine falls back to `UseOnlyPairs`. -/
def RegionResolutionCheck (w : AngularCorrelation) : Bool × AngularCorrelation :=
  if w.maxResolution < w.regionationResolution then (true, UseOnlyPairs w) else (false, w)

/-- One bin's random-count rescaling in the loops at lines 641-645 and
779-783: `RescaleGalRand`, `RescaleRandGal`, `RescaleRandRand`, each with
argument `1.0*random_iterations`. -/
noncomputable def rescaleRandomCounts (k : ℝ) (b : AngularBin) : AngularBin :=
  RescaleRandRand k (RescaleRandGal k (RescaleGalRand k b))

/-- The final pass of `FindPairAutoCorrelation` (lines 639-646) and
`FindPairCrossCorrelation` (lines 777-784): iterate from
`theta_pair_begin_` to `theta_pair_end_` rescaling the three random
accumulators of each bin. -/
noncomputable def finalPairRescale (k : ℝ) (w : AngularCorrelation) : AngularCorrelation :=
  { w with thetabin := mapSlice (rescaleRandomCounts k) w.pairBegin w.pairEnd 0 w.thetabin }

/-- One output row of `AngularCorrelation::Write` (lines 794-810): the
stream precision (always `setprecision(6)`) together with the column
values; three columns when the bin has regions, six for a pair bin
(resolution `0`) without regions, four for a pixel bin without regions. -/
noncomputable def writeRow (b : AngularBin) : ℕ × List ℝ :=
  if b.nRegion ≠ 0 then
    (6, [b.theta, MeanWtheta b, b.meanWthetaError])
  else if b.resolution = 0 then
    (6, [b.theta, b.wtheta, b.galGal, b.galRand, b.randGal, b.randRand])
  else
    (6, [b.theta, b.wtheta, b.pixelWtheta, b.pixelWeight])

/-- `AngularCorrelation::Write` (lines 786-816).  `canOpen` models whether
`std::ofstream(...).is_open()` succeeds; the result is the returned success
flag together with the rows written (one per bin, from `Begin()` to
`End()`, i.e. the whole bin vector). -/
noncomputable def Write (canOpen : Bool) (w : AngularCorrelation) : Bool × List (ℕ × List ℝ) :=
  if canOpen then (true, w.thetabin.map writeRow) else (false, [])

/-- `AngularCorrelation::BinIterator(bin_idx)` (lines 997-1005) followed by
a dereference, for an in-range index (the C++ version walks `bin_idx`
steps, stopping at `thetabin_.end()`; dereferencing the result is only
defined for `bin_idx < thetabin_.size()`). -/
noncomputable def BinIterator (w : AngularCorrelation) (idx : ℕ) : AngularBin :=
  w.thetabin.getD idx {}

/-- `AngularCorrelation::Covariance(bin_idx_a, bin_idx_b)` (lines
1019-1050): jack-knife covariance when both bins carry the same non-zero
region count, otherwise the squared Poisson error on the diagonal and zero
off it. -/
noncomputable def Covariance (w : AngularCorrelation) (a b : ℕ) : ℝ :=
  let ta := BinIterator w a
  let tb := BinIterator w b
  if ta.nRegion = tb.nRegion ∧ 0 < ta.nRegion then
    (∑ r in Finset.range ta.nRegion,
        (ta.wthetaRegion r - MeanWtheta ta) * (tb.wthetaRegion r - MeanWtheta tb)) *
      (((ta.nRegion : ℝ) - 1) * ((ta.nRegion : ℝ) - 1) / ((ta.nRegion : ℝ) * ta.nRegion))
  else if a = b then ta.wthetaError * ta.wthetaError
  else 0

/-- The `resolution == 0` branch of `AngularCorrelation::ThetaMax` (lines
863-885): the code returns `theta_pair_end_->ThetaMin()`; the dereference
is modelled as an `Option` read of the bin at index `pairEnd`, `none`
meaning the iterator points past the end of the bin vector. -/
def ThetaMax0 (w : AngularCorrelation) : Option ℝ :=
  (w.thetabin.get? w.pairEnd).map AngularBin.thetaMin

/-- The `resolution == 0` branch of `AngularCorrelation::Sin2ThetaMax`
(lines 910-932): the code returns `theta_pair_end_->Sin2ThetaMin()`,
modelled like `ThetaMax0`. -/
def Sin2ThetaMax0 (w : AngularCorrelation) : Option ℝ :=
  (w.thetabin.get? w.pairEnd).map AngularBin.sin2thetaMin

/-- The amended `AutoMaxResolution` tier table: strict thresholds, with the
exact boundary counts `5*10^5`, `2*10^6` and `10^7` falling through to the
baseline cap (`512` for large areas, `2048` for small ones). -/
noncomputable def AutoMaxResolutionCapAmended (n_obj : ℕ) (area : ℝ) : ℕ :=
  if 500 < area then
    if n_obj < 500000 then 64
    else if n_obj = 500000 then 512
    else if n_obj < 2000000 then 128
    else if n_obj = 2000000 then 512
    else if n_obj < 10000000 then 256
    else 512
  else
    if n_obj < 500000 then 256
    else if n_obj = 500000 then 2048
    else if n_obj < 2000000 then 512
    else if n_obj = 2000000 then 2048
    else if n_obj < 10000000 then 1024
    else 2048

/-- A concrete angular bin used to exercise the embedded operations. -/
noncomputable def exBinA : AngularBin :=
  { thetaMin := 1, thetaMax := 2, theta := 3 / 2, resolution := 8,
    galGal := 4, galRand := 3, randGal := 5, randRand := 7,
    pixelWtheta := 2, pixelWeight := 9, nRegion := 2,
    wthetaRegion := fun r => r, wtheta := 1, wthetaError := 3, meanWthetaError := 1 / 4 }

/-- A second concrete angular bin used to exercise the embedded operations. -/
noncomputable def exBinB : AngularBin :=
  { thetaMin := 2, thetaMax := 4, theta := 3, resolution := 4,
    galGal := 1, galRand := 2, randGal := 4, randRand := 8,
    pixelWtheta := 1, pixelWeight := 5, nRegion := 2,
    wthetaRegion := fun r => 2 * r, wtheta := 2, wthetaError := 5, meanWthetaError := 1 / 2 }

/-- A concrete two-bin correlation state used to exercise the embedded
operations. -/
noncomputable def exW : AngularCorrelation :=
  { thetabin := [exBinA, exBinB], pixelBegin := 2, pixelEnd := 2,
    pairBegin := 0, pairEnd := 2, thetaMin := 1, thetaMax := 4,
    minResolution := 4, maxResolution := 8, regionationResolution := 16,
    nRegion := 2, manualResolutionBreak := false }

/-- A concrete stand-in for `AngularBin::CalculateResolution`: reads the
resolution already stored on the bin. -/
def fEx (b : AngularBin) : ℕ := b.resolution

/-- Claim C3, counterexample: at the exact boundary count `n = 5*10^5` with
`A = 1000 > 500`, none of the strict comparisons in `AutoMaxResolution`
fires, so the cap stays at the large-area baseline `512`, not the `128`
the claim asserts for that boundary count. -/
theorem C3_counterexample :
    AutoMaxResolutionCap 500000 (1000 : ℝ) = 512 ∧ (512 : ℕ) ≠ 128 := by
  refine ⟨?_, by decide⟩
  norm_num [AutoMaxResolutionCap]

/-- Claim C3 (amended): `AutoMaxResolution(n, A)` follows the claimed tier
table with strict thresholds, except that at the exact boundary counts
`5*10^5` and `2*10^6` (and at `10^7`, where it agrees with the `otherwise`
tier) the cap is the baseline: `512` when `A > 500` and `2048` otherwise;
in particular `AutoMaxResolution(10^6, 1000)` yields a cap of `128`. -/
theorem C3_theorem :
    (∀ (n : ℕ) (area : ℝ),
        AutoMaxResolutionCap n area = AutoMaxResolutionCapAmended n area) ∧
      AutoMaxResolutionCap 1000000 (1000 : ℝ) = 128 := by
  constructor
  · intro n area
    by_cases h : (500 : ℝ) < area
    · simp only [AutoMaxResolutionCap, AutoMaxResolutionCapAmended, if_pos h]
      split_ifs <;> omega
    · simp only [AutoMaxResolutionCap, AutoMaxResolutionCapAmended, if_neg h]
      split_ifs <;> omega
  · norm_num [AutoMaxResolutionCap]

/-- Claim C4, counterexample: with `|A| = |B| = 10^5`, `area_a = 1000` and
`area_b = 100`, `FindCrossCorrelationWithRegions` passes `area_a = 1000` to
`AutoMaxResolution` and installs a cap of `64`, while the claimed argument
`min(area_a, area_b) = 100` would give a cap of `256`. -/
theorem C4_counterexample :
    (FindCrossCorrelationWithRegionsResStep fEx 100000 100000 1000 100
          {}).maxResolution = 64 ∧
      AutoMaxResolutionCap 100000 (min (1000 : ℝ) 100) = 256 ∧ (64 : ℕ) ≠ 256 := by
  have hs : Real.sqrt (10000000000 : ℝ) = 100000 := by
    rw [show ((10000000000 : ℝ)) = 100000 ^ 2 by norm_num,
      Real.sqrt_sq (by norm_num)]
  have hfl : ⌊(100000 : ℝ)⌋₊ = 100000 := by norm_num
  refine ⟨?_, ?_, by decide⟩
  · have hm : ({} : AngularCorrelation).manualResolutionBreak = false := rfl
    simp only [FindCrossCorrelationWithRegionsResStep, hm, if_neg (Bool.false_ne_true)]
    norm_num [AutoMaxResolution, SetMaxResolution, AutoMaxResolutionCap, hs, hfl]
  · norm_num [AutoMaxResolutionCap]

/-- Claim C4 (amended): when no manual resolution break is set,
`FindCrossCorrelation` invokes `AutoMaxResolution` with
`n_eff = floor(sqrt(|A|*|B|))` and `A_eff = min(area_a, area_b)`, while
`FindCrossCorrelationWithRegions` invokes it with the same `n_eff` but with
`A_eff = area_a`, the area of the first map, regardless of `area_b`. -/
theorem C4_theorem (f : AngularBin → ℕ) (sa sb : ℕ) (areaA areaB : ℝ)
    (w : AngularCorrelation) (h : w.manualResolutionBreak = false) :
    FindCrossCorrelationResStep f sa sb areaA areaB w =
        SetMaxResolution f
          (AutoMaxResolutionCap (⌊Real.sqrt ((sa : ℝ) * sb)⌋₊) (min areaA areaB)) false w ∧
      FindCrossCorrelationWithRegionsResStep f sa sb areaA areaB w =
        SetMaxResolution f
          (AutoMaxResolutionCap (⌊Real.sqrt ((sa : ℝ) * sb)⌋₊) areaA) false w := by
  have hmin : (if areaB < areaA then areaB else areaA) = min areaA areaB := by
    rcases lt_or_le areaB areaA with hlt | hle
    · rw [if_pos hlt, min_eq_right hlt.le]
    · rw [if_neg (not_lt.mpr hle), min_eq_left hle]
  constructor
  · simp only [FindCrossCorrelationResStep, h, if_neg (Bool.false_ne_true),
      AutoMaxResolution, hmin]
  · simp only [FindCrossCorrelationWithRegionsResStep, h, if_neg (Bool.false_ne_true),
      AutoMaxResolution]

/-- Witness for C4: the amended statement applied to a concrete state with
no manual break. -/
theorem C4_witness :
    FindCrossCorrelationResStep fEx 2 2 (1000 : ℝ) 100 {} =
      SetMaxResolution fEx
        (AutoMaxResolutionCap (⌊Real.sqrt (((2 : ℕ) : ℝ) * ((2 : ℕ) : ℝ))⌋₊)
          (min (1000 : ℝ) 100)) false {} :=
  (C4_theorem fEx 2 2 1000 100 {} rfl).1

/-- Claim C1: when the two indexed bins report the same region count `N` and
`N > 0`, `Covariance(a, b)` equals `(N-1)²/N²` times the sum over regions of
the products of leave-one-out deviations from the per-bin region means;
otherwise it is the squared Poisson error on the diagonal and exactly `0`
off it. -/
theorem C1_theorem (w : AngularCorrelation) (a b : ℕ) (ta tb : AngularBin)
    (hta : w.thetabin.get? a = some ta) (htb : w.thetabin.get? b = some tb) :
    (ta.nRegion = tb.nRegion ∧ 0 < ta.nRegion →
      Covariance w a b =
        ((ta.nRegion : ℝ) - 1) ^ 2 / (ta.nRegion : ℝ) ^ 2 *
          ∑ r in Finset.range ta.nRegion,
            (ta.wthetaRegion r -
                (∑ s in Finset.range ta.nRegion, ta.wthetaRegion s) / ta.nRegion) *
              (tb.wthetaRegion r -
                (∑ s in Finset.range tb.nRegion, tb.wthetaRegion s) / tb.nRegion)) ∧
      (¬(ta.nRegion = tb.nRegion ∧ 0 < ta.nRegion) →
        (a = b → Covariance w a b = ta.wthetaError ^ 2) ∧
          (a ≠ b → Covariance w a b = 0)) := by
  have hba : BinIterator w a = ta := by
    rw [BinIterator, show w.thetabin.getD a {} = (w.thetabin.get? a).getD {} from rfl, hta]
    rfl
  have hbb : BinIterator w b = tb := by
    rw [BinIterator, show w.thetabin.getD b {} = (w.thetabin.get? b).getD {} from rfl, htb]
    rfl
  simp only [Covariance, hba, hbb, MeanWtheta]
  constructor
  · intro h
    rw [if_pos h]
    ring
  · intro h
    rw [if_neg h]
    constructor
    · intro hab
      rw [if_pos hab]
      ring
    · intro hab
      rw [if_neg hab]

/-- Witness for C1: the jack-knife branch evaluated on a concrete two-bin,
two-region state. -/
theorem C1_witness :
    (exBinA.nRegion = exBinB.nRegion ∧ 0 < exBinA.nRegion) ∧
      Covariance exW 0 1 =
        ((exBinA.nRegion : ℝ) - 1) ^ 2 / (exBinA.nRegion : ℝ) ^ 2 *
          ∑ r in Finset.range exBinA.nRegion,
            (exBinA.wthetaRegion r -
                (∑ s in Finset.range exBinA.nRegion, exBinA.wthetaRegion s) / exBinA.nRegion) *
              (exBinB.wthetaRegion r -
                (∑ s in Finset.range exBinB.nRegion, exBinB.wthetaRegion s) / exBinB.nRegion) := by
  have h : exBinA.nRegion = exBinB.nRegion ∧ 0 < exBinA.nRegion := by
    refine ⟨rfl, ?_⟩
    norm_num [exBinA]
  exact ⟨h, (C1_theorem exW 0 1 exBinA exBinB rfl rfl).1 h⟩

/-- Reading position `j` of `mapSlice f lo hi i l`: the original element,
with `f` applied exactly when the absolute position `i + j` lies in
`[lo, hi)`. -/
theorem mapSlice_get? (f : AngularBin → AngularBin) (lo hi : ℕ) (l : List AngularBin) :
    ∀ i j : ℕ,
      (mapSlice f lo hi i l).get? j =
        (l.get? j).map fun b => if lo ≤ i + j ∧ i + j < hi then f b else b := by
  induction l with
  | nil => intro i j; simp [mapSlice]
  | cons b bs ih =>
    intro i j
    cases j with
    | zero => simp [mapSlice]
    | succ j =>
      have e : i + 1 + j = i + (j + 1) := by omega
      have h2 := ih (i + 1) j
      rw [e] at h2
      simpa [mapSlice] using h2

/-- Claim C2: after the random-iteration loop, the final pass of
`FindPairAutoCorrelation` and `FindPairCrossCorrelation` multiplies the
`gal_rand`, `rand_gal` and `rand_rand` accumulators of every bin in the
pair range by `1/k_rand`, and leaves `gal_gal` unchanged. -/
theorem C2_theorem (w : AngularCorrelation) (k : ℝ) (hk : k ≠ 0) (i : ℕ)
    (hlo : w.pairBegin ≤ i) (hhi : i < w.pairEnd) (b : AngularBin)
    (hb : w.thetabin.get? i = some b) :
    ((finalPairRescale k w).thetabin.get? i).map
        (fun c => (c.galRand, c.randGal, c.randRand, c.galGal)) =
      some (b.galRand * (1 / k), b.randGal * (1 / k), b.randRand * (1 / k), b.galGal) := by
  rw [finalPairRescale]
  simp only [mapSlice_get?, hb, Option.map_some']
  rw [if_pos ⟨by simpa using hlo, by simpa using hhi⟩]
  simp [rescaleRandomCounts, RescaleGalRand, RescaleRandGal, RescaleRandRand,
    div_eq_mul_inv, one_div]

/-- Witness for C2: the rescale pass with `k_rand = 2` on a concrete state
whose pair range covers both bins. -/
theorem C2_witness :
    ((finalPairRescale 2 exW).thetabin.get? 0).map
        (fun c => (c.galRand, c.randGal, c.randRand, c.galGal)) =
      some (exBinA.galRand * (1 / 2), exBinA.randGal * (1 / 2),
        exBinA.randRand * (1 / 2), exBinA.galGal) :=
  C2_theorem exW 2 (by norm_num) 0 (by norm_num [exW]) (by norm_num [exW]) exBinA rfl

/-- Claim C8: when the regionation resolution exceeds the engine's maximum
pixel resolution, the `WithRegions` entry points emit a warning and fall
back to the pair-only estimator: every bin's resolution becomes `0`, the
pixel range becomes empty and the pair range covers all bins. -/
theorem C8_theorem (w : AngularCorrelation)
    (h : w.maxResolution < w.regionationResolution) :
    (RegionResolutionCheck w).1 = true ∧
      (∀ b ∈ (RegionResolutionCheck w).2.thetabin, b.resolution = 0) ∧
      (RegionResolutionCheck w).2.pixelBegin = (RegionResolutionCheck w).2.pixelEnd ∧
      (RegionResolutionCheck w).2.pairBegin = 0 ∧
      (RegionResolutionCheck w).2.pairEnd = (RegionResolutionCheck w).2.thetabin.length := by
  have hrc : RegionResolutionCheck w = (true, UseOnlyPairs w) := by
    unfold RegionResolutionCheck
    rw [if_pos h]
  rw [hrc]
  refine ⟨rfl, ?_, rfl, rfl, ?_⟩
  · intro b hb
    simp only [UseOnlyPairs, List.mem_map] at hb
    obtain ⟨c, _, rfl⟩ := hb
    rfl
  · simp [UseOnlyPairs]

/-- Witness for C8: the fallback on a concrete state regionated at `16`
with maximum pixel resolution `8`. -/
theorem C8_witness :
    (RegionResolutionCheck exW).1 = true ∧
      ∀ b ∈ (RegionResolutionCheck exW).2.thetabin, b.resolution = 0 := by
  have h := C8_theorem exW (by norm_num [exW])
  exact ⟨h.1, h.2.1⟩

/-- Claim C9: `Write` returns a success flag, `false` exactly when the file
cannot be opened; on success it emits one row per bin at stream precision
six: three columns (`theta`, mean w, jack-knife error) for a bin with
regions, six columns (`theta`, w, GG, GR, RG, RR) for a pair bin without
regions, four columns (`theta`, w, pixel numerator, pixel denominator) for
a pixel bin without regions. -/
theorem C9_theorem (w : AngularCorrelation) (canOpen : Bool) :
    ((Write canOpen w).1 = false ↔ canOpen = false) ∧
      (Write true w).2 = w.thetabin.map writeRow ∧
      ∀ b : AngularBin,
        (b.nRegion ≠ 0 →
          writeRow b = (6, [b.theta, MeanWtheta b, b.meanWthetaError])) ∧
          (b.nRegion = 0 → b.resolution = 0 →
            writeRow b = (6, [b.theta, b.wtheta, b.galGal, b.galRand, b.randGal, b.randRand])) ∧
          (b.nRegion = 0 → b.resolution ≠ 0 →
            writeRow b = (6, [b.theta, b.wtheta, b.pixelWtheta, b.pixelWeight])) := by
  refine ⟨by cases canOpen <;> simp [Write], by simp [Write], ?_⟩
  intro b
  refine ⟨fun h => ?_, fun h0 hr => ?_, fun h0 hr => ?_⟩
  · rw [writeRow, if_pos h]
  · rw [writeRow, if_neg (by simp [h0]), if_pos hr]
  · rw [writeRow, if_neg (by simp [h0]), if_neg hr]

/-- Witness for C9: the region row shape on a concrete bin with two
regions, and the failure flag when the file cannot be opened. -/
theorem C9_witness :
    writeRow exBinA = (6, [exBinA.theta, MeanWtheta exBinA, exBinA.meanWthetaError]) ∧
      (Write false exW).1 = false := by
  have h := C9_theorem exW false
  exact ⟨(h.2.2 exBinA).1 (by norm_num [exBinA]), h.1.mpr rfl⟩

/-- Claim C10 (the code violates it): after `UseOnlyPairs` the pair range
extends to the end of the bin vector, so the `resolution == 0` branches of
`ThetaMax` and `Sin2ThetaMax` dereference `theta_pair_end_ ==
thetabin_.end()`, one element past the end: on a concrete two-bin state the
modelled reads return `none` (index `2` in a vector of length `2`). -/
theorem C10_theorem :
    ThetaMax0 (UseOnlyPairs exW) = none ∧ Sin2ThetaMax0 (UseOnlyPairs exW) = none ∧
      (UseOnlyPairs exW).thetabin.length = 2 ∧ (UseOnlyPairs exW).pairEnd = 2 := by
  refine ⟨?_, ?_, ?_, rfl⟩ <;> simp [ThetaMax0, Sin2ThetaMax0, UseOnlyPairs, exW]

/-- Claim C6 (the code violates it): for `N = 2`, `θ_min = 10`, `θ_max = 12`
(`Δ = 1`) the first constructed bin has left edge `11 = θ_min + 1·Δ`
instead of `θ_min + 0·Δ = 10` (line 87 calls `SetThetaMin` a second time
instead of `SetThetaMax`), its upper endpoint is never stored (it keeps the
default value `0`), and its representative `θ = 11/2` fails
`θ_min < θ ≤ θ_max`. -/
theorem C6_theorem :
    (linearBins 2 10 12).length = 2 ∧
      ((linearBins 2 10 12).get? 0).map AngularBin.thetaMin = some 11 ∧
      ((linearBins 2 10 12).get? 0).map AngularBin.thetaMax =
        some (AngularBin.thetaMax {}) ∧
      ((linearBins 2 10 12).get? 0).map AngularBin.theta = some (11 / 2) ∧
      ¬(10 < (11 : ℝ) / 2) := by
  refine ⟨by simp only [linearBins, List.length_map, List.length_range], ?_, ?_, ?_,
      by norm_num⟩ <;>
    norm_num [linearBins, SetThetaMin, SetTheta, List.range_succ]

/-- In a list where the elements satisfying `p` form a downward-closed set
of positions, position `i` satisfies `p` exactly when `i` is below the
count of satisfying elements (so those elements are a prefix of that
length). -/
theorem countP_prefix_char {β : Type} (p : β → Bool) :
    ∀ l : List β,
      (∀ i j (hi : i < l.length) (hj : j < l.length), i ≤ j →
        p (l.get ⟨j, hj⟩) = true → p (l.get ⟨i, hi⟩) = true) →
      ∀ i (hi : i < l.length), (i < l.countP p ↔ p (l.get ⟨i, hi⟩) = true) := by
  intro l
  induction l with
  | nil => intro _ i hi; exact absurd hi (Nat.not_lt_zero i)
  | cons b t ih =>
    intro H i hi
    by_cases hb : p b = true
    · rw [List.countP_cons_of_pos p t hb]
      cases i with
      | zero => simpa [hb] using Nat.succ_pos (t.countP p)
      | succ i =>
        have hi' : i < t.length := by simpa using hi
        have Ht : ∀ i' j' (hi'' : i' < t.length) (hj'' : j' < t.length), i' ≤ j' →
            p (t.get ⟨j', hj''⟩) = true → p (t.get ⟨i', hi''⟩) = true := by
          intro i' j' hi'' hj'' hle hp
          have h1 := H (i' + 1) (j' + 1) (by simpa using hi'') (by simpa using hj'')
            (by omega) (by rw [List.get_cons_succ]; exact hp)
          rw [List.get_cons_succ] at h1
          exact h1
        have h2 := ih Ht i hi'
        rw [List.get_cons_succ, Nat.succ_lt_succ_iff]
        exact h2
    · have hzero : t.countP p = 0 := by
        rw [List.countP_eq_zero]
        intro a ha hpa
        obtain ⟨⟨j, hj⟩, rfl⟩ := List.mem_iff_get.mp ha
        exact hb (H 0 (j + 1) (by omega) (by simpa using hj) (by omega)
          (by rw [List.get_cons_succ]; exact hpa))
      rw [List.countP_cons_of_neg p t (by simp [hb]), hzero]
      constructor
      · intro h0
        exact absurd h0 (by omega)
      · intro hp
        exfalso
        cases i with
        | zero => exact hb hp
        | succ i =>
          exact hb (H 0 (i + 1) (by omega) hi (by omega) hp)

/-- Claim C7: after `SetMaxResolution(R_cap)`, `UseOnlyPairs` and
`UseOnlyPixels`, the pair range and the pixel range are adjacent half-open
sub-ranges of the bin sequence, pair bins first and pixel bins last; when
the computed bin resolutions are non-increasing along the bin sequence,
`SetMaxResolution` moves into the pair range exactly the bins whose
computed resolution exceeds `R_cap` (setting their resolution to `0`),
while a bin whose resolution equals `R_cap` exactly stays in the pixel
range with its resolution kept. -/
theorem C7_theorem (f : AngularBin → ℕ) (cap : ℕ) (mb : Bool) (w : AngularCorrelation) :
    ((SetMaxResolution f cap mb w).pairBegin = 0 ∧
        (SetMaxResolution f cap mb w).pairEnd = (SetMaxResolution f cap mb w).pixelBegin ∧
        (SetMaxResolution f cap mb w).pixelEnd =
          (SetMaxResolution f cap mb w).thetabin.length ∧
        (SetMaxResolution f cap mb w).pairEnd ≤ (SetMaxResolution f cap mb w).pixelEnd) ∧
      ((∀ i j (hi : i < w.thetabin.length) (hj : j < w.thetabin.length), i ≤ j →
          f (w.thetabin.get ⟨j, hj⟩) ≤ f (w.thetabin.get ⟨i, hi⟩)) →
        ∀ i (hi : i < w.thetabin.length),
          (i < (SetMaxResolution f cap mb w).pairEnd ↔ cap < f (w.thetabin.get ⟨i, hi⟩)) ∧
            (cap < f (w.thetabin.get ⟨i, hi⟩) →
              ((SetMaxResolution f cap mb w).thetabin.get? i).map AngularBin.resolution =
                some 0) ∧
            (f (w.thetabin.get ⟨i, hi⟩) = cap →
              (SetMaxResolution f cap mb w).pixelBegin ≤ i ∧
                ((SetMaxResolution f cap mb w).thetabin.get? i).map AngularBin.resolution =
                  some cap)) ∧
      ((UseOnlyPairs w).pairBegin = 0 ∧
        (UseOnlyPairs w).pairEnd = (UseOnlyPairs w).thetabin.length ∧
        (UseOnlyPairs w).pixelBegin = (UseOnlyPairs w).thetabin.length ∧
        (UseOnlyPairs w).pixelEnd = (UseOnlyPairs w).thetabin.length) ∧
      ((UseOnlyPixels f w).pairBegin = 0 ∧ (UseOnlyPixels f w).pairEnd = 0 ∧
        (UseOnlyPixels f w).pixelBegin = 0 ∧
        (UseOnlyPixels f w).pixelEnd = (UseOnlyPixels f w).thetabin.length) := by
  refine ⟨⟨rfl, rfl, ?_, ?_⟩, ?_, ⟨rfl, by simp [UseOnlyPairs], by simp [UseOnlyPairs],
    by simp [UseOnlyPairs]⟩, ⟨rfl, rfl, rfl, rfl⟩⟩
  · simp [SetMaxResolution]
  · simp only [SetMaxResolution]
    exact le_trans (w.thetabin.countP_le_length _) (by simp)
  · intro hmono i hi
    have hchar := countP_prefix_char (fun b => decide (cap < f b)) w.thetabin
      (by
        intro i' j' hi' hj' hle hp
        rw [decide_eq_true_iff] at hp ⊢
        exact lt_of_lt_of_le hp (hmono i' j' hi' hj' hle))
      i hi
    rw [decide_eq_true_iff] at hchar
    have hgetmap : (SetMaxResolution f cap mb w).thetabin.get? i =
        some (if cap < f (w.thetabin.get ⟨i, hi⟩) then
          SetResolution (w.thetabin.get ⟨i, hi⟩) 0
        else SetResolution (w.thetabin.get ⟨i, hi⟩) (f (w.thetabin.get ⟨i, hi⟩))) := by
      show (w.thetabin.map _).get? i = _
      rw [List.get?_map, List.get?_eq_get hi, Option.map_some']
    refine ⟨hchar, ?_, ?_⟩
    · intro hlt
      rw [hgetmap, if_pos hlt, Option.map_some']
      rfl
    · intro heq
      have hnlt : ¬cap < f (w.thetabin.get ⟨i, hi⟩) := by omega
      refine ⟨?_, ?_⟩
      · show w.thetabin.countP (fun b => decide (cap < f b)) ≤ i
        omega
      · rw [hgetmap, if_neg hnlt, Option.map_some', heq]
        rfl

/-- Witness for C7: `SetMaxResolution(4)` on a concrete two-bin state with
non-increasing computed resolutions `8, 4`: the first bin (resolution `8 >
4`) lands in the pair range, the second (exactly `4`) stays pixel-based. -/
theorem C7_witness :
    (SetMaxResolution fEx 4 true exW).pairBegin = 0 ∧
      (0 < (SetMaxResolution fEx 4 true exW).pairEnd ↔ 4 < fEx exBinA) ∧
      (SetMaxResolution fEx 4 true exW).pixelBegin ≤ 1 := by
  have hlen : exW.thetabin.length = 2 := rfl
  have hmono : ∀ i j (hi : i < exW.thetabin.length) (hj : j < exW.thetabin.length), i ≤ j →
      fEx (exW.thetabin.get ⟨j, hj⟩) ≤ fEx (exW.thetabin.get ⟨i, hi⟩) := by
    intro i j hi hj hij
    rw [hlen] at hi hj
    interval_cases i <;> interval_cases j <;>
      simp [exW, exBinA, exBinB, fEx]
  have h := C7_theorem fEx 4 true exW
  have h0 := h.2.1 hmono 0 (by rw [hlen]; omega)
  have h1 := h.2.1 hmono 1 (by rw [hlen]; omega)
  refine ⟨h.1.1, ?_, ?_⟩
  · have : exW.thetabin.get ⟨0, by rw [hlen]; omega⟩ = exBinA := rfl
    rw [← this]
    exact h0.1
  · have hfb : fEx (exW.thetabin.get ⟨1, by rw [hlen]; omega⟩) = 4 := rfl
    exact (h1.2.2 hfb).1

/-- The left bin edges of the log constructor grow strictly with the step
index when the bins-per-decade parameter is positive. -/
theorem logBinLeftEdge_strictMono (tmin B : ℝ) (hB : 0 < B) :
    StrictMono (logBinLeftEdge tmin B) := by
  intro j k hjk
  unfold logBinLeftEdge
  rw [Real.rpow_lt_rpow_left_iff (by norm_num : (1 : ℝ) < 10)]
  rw [div_lt_div_iff_of_pos_right hB]
  have : (j : ℝ) < (k : ℝ) := Nat.cast_lt.mpr hjk
  linarith

/-- A `filterMap` whose condition holds on every element of the list is the
plain `map`. -/
theorem filterMap_if_eq_map {α : Type} (g : ℕ → α) (q : ℕ → Prop)
    (dec : ∀ j, Decidable (q j)) (l : List ℕ) (h : ∀ j ∈ l, q j) :
    (l.filterMap fun j => @ite _ (q j) (dec j) (some (g j)) none) = l.map g := by
  induction l with
  | nil => rfl
  | cons a t ih =>
    rw [List.filterMap_cons, List.map_cons, if_pos (h a (List.mem_cons_self a t)),
      ih fun j hj => h j (List.mem_cons_of_mem a hj)]

/-- The lower endpoint stored by the log constructor at step `j`. -/
theorem mkLogBin_thetaMin (tmin B : ℝ) (j : ℕ) :
    (mkLogBin tmin B j).thetaMin = logBinLeftEdge tmin B j := rfl

/-- The upper endpoint stored by the log constructor at step `j`. -/
theorem mkLogBin_thetaMax (tmin B : ℝ) (j : ℕ) :
    (mkLogBin tmin B j).thetaMax = logBinLeftEdge tmin B (j + 1) := rfl

/-- Each log bin spans one factor-`10^(1/B)` step. -/
theorem logBinLeftEdge_succ (tmin B : ℝ) (hB : B ≠ 0) (j : ℕ) :
    logBinLeftEdge tmin B (j + 1) = logBinLeftEdge tmin B j * (10 : ℝ) ^ ((1 : ℝ) / B) := by
  unfold logBinLeftEdge
  rw [← Real.rpow_add (by norm_num : (0 : ℝ) < 10)]
  congr 1
  push_cast
  field_simp
  ring

/-- The representative angle stored by the log constructor is the geometric
mean of the stored endpoints. -/
theorem mkLogBin_theta (tmin B : ℝ) (j : ℕ) :
    (mkLogBin tmin B j).theta =
      Real.sqrt ((mkLogBin tmin B j).thetaMin * (mkLogBin tmin B j).thetaMax) := by
  have ht : (mkLogBin tmin B j).theta =
      (10 : ℝ) ^ (0.5 * (Real.logb 10 (logBinLeftEdge tmin B j) +
        Real.logb 10 (logBinLeftEdge tmin B (j + 1)))) := rfl
  rw [ht, mkLogBin_thetaMin, mkLogBin_thetaMax]
  unfold logBinLeftEdge
  rw [Real.logb_rpow (by norm_num : (0 : ℝ) < 10) (by norm_num),
    Real.logb_rpow (by norm_num : (0 : ℝ) < 10) (by norm_num),
    ← Real.rpow_add (by norm_num : (0 : ℝ) < 10),
    Real.sqrt_eq_rpow, ← Real.rpow_mul (by norm_num : (0 : ℝ) ≤ 10)]
  congr 1
  ring

/-- The concrete scale `0.001` as an exact power of ten. -/
theorem rpow_neg_three : (0.001 : ℝ) = (10 : ℝ) ^ (-3 : ℝ) := by
  rw [show ((-3 : ℝ)) = ((-3 : ℤ) : ℝ) by norm_num, Real.rpow_intCast]
  norm_num

/-- The floor of `log10(0.001)` is `-3`. -/
theorem floor_logb_concrete : ⌊Real.logb 10 (0.001 : ℝ)⌋ = -3 := by
  rw [rpow_neg_three, Real.logb_rpow (by norm_num : (0 : ℝ) < 10) (by norm_num)]
  norm_num

/-- The log constructor's loop for `(θ_min, θ_max, B) = (0.001, 10, 6)`
runs for exactly `24` iterations. -/
theorem logStops_concrete : logLoopStopsAt 0.001 10 6 24 := by
  constructor
  · intro j hj
    unfold logBinLeftEdge
    rw [floor_logb_concrete]
    calc (10 : ℝ) ^ ((((-3 : ℤ) : ℝ) * 6 + (j : ℝ)) / 6) < (10 : ℝ) ^ (1 : ℝ) := by
          rw [Real.rpow_lt_rpow_left_iff (by norm_num : (1 : ℝ) < 10),
            div_lt_one (by norm_num : (0 : ℝ) < 6)]
          have : (j : ℝ) < 24 := by exact_mod_cast hj
          push_cast
          linarith
      _ = 10 := Real.rpow_one 10
  · unfold logBinLeftEdge
    rw [floor_logb_concrete]
    have he : ((((-3 : ℤ) : ℝ)) * 6 + ((24 : ℕ) : ℝ)) / 6 = 1 := by push_cast; norm_num
    rw [he, Real.rpow_one]

/-- For `(0.001, 10, 6, 24)` every step of the loop passes the emission
test, so the constructed list is the full `map` over the `24` steps. -/
theorem logBins_concrete_eq :
    logBins 0.001 10 6 24 = (List.range 24).map (mkLogBin 0.001 6) := by
  rw [logBins]
  refine filterMap_if_eq_map (mkLogBin 0.001 6) _ _ (List.range 24) ?_
  intro j hj
  rw [List.mem_range] at hj
  refine ⟨?_, logStops_concrete.1 j hj⟩
  show (0.001 : ℝ) ≤ logBinLeftEdge 0.001 6 j
  unfold logBinLeftEdge
  rw [floor_logb_concrete, rpow_neg_three,
    Real.rpow_le_rpow_left_iff (by norm_num : (1 : ℝ) < 10),
    le_div_iff (by norm_num : (0 : ℝ) < 6)]
  have : (0 : ℝ) ≤ (j : ℝ) := Nat.cast_nonneg j
  push_cast
  linarith

/-- Claim C5: under the loop-termination hypothesis the log constructor
emits exactly the bins whose left edge `10^(⌊log10 θ_min⌋ + j/B)` satisfies
`θ_min ≤ edge` and `edge < θ_max`; each bin spans one factor-`10^(1/B)`
step and its representative `θ` is the geometric mean of its endpoints; for
`(θ_min, θ_max, B) = (0.001, 10, 6)` the loop stops after `24` steps,
exactly `24` bins are emitted, every bin's `θ_min` is at least `0.001` (in
particular the first one), and every bin's `θ_max` is below
`10·10^(1/6)` (in particular the last one). -/
theorem C5_theorem (tmin tmax B : ℝ) (J : ℕ) (htmin : 0 < tmin) (hB : 0 < B)
    (hstop : logLoopStopsAt tmin tmax B J) :
    (∀ j : ℕ, mkLogBin tmin B j ∈ logBins tmin tmax B J ↔
        tmin ≤ logBinLeftEdge tmin B j ∧ logBinLeftEdge tmin B j < tmax) ∧
      (∀ j : ℕ,
        (mkLogBin tmin B j).thetaMin =
            (10 : ℝ) ^ ((⌊Real.logb 10 tmin⌋ : ℝ) + (j : ℝ) / B) ∧
          (mkLogBin tmin B j).thetaMax =
            (mkLogBin tmin B j).thetaMin * (10 : ℝ) ^ ((1 : ℝ) / B) ∧
          (mkLogBin tmin B j).theta =
            Real.sqrt ((mkLogBin tmin B j).thetaMin * (mkLogBin tmin B j).thetaMax)) ∧
      logLoopStopsAt 0.001 10 6 24 ∧
      (logBins 0.001 10 6 24).length = 24 ∧
      ∀ b ∈ logBins 0.001 10 6 24,
        0.001 ≤ b.thetaMin ∧ b.thetaMax < 10 * (10 : ℝ) ^ ((1 : ℝ) / 6) := by
  refine ⟨?_, ?_, logStops_concrete, ?_, ?_⟩
  · intro j
    constructor
    · intro hmem
      rw [logBins, List.mem_filterMap] at hmem
      obtain ⟨j', hj', hsome⟩ := hmem
      by_cases hc : DoubleGE (logBinLeftEdge tmin B j') tmin ∧
          logBinLeftEdge tmin B j' < tmax
      · rw [if_pos hc] at hsome
        have hedge : logBinLeftEdge tmin B j' = logBinLeftEdge tmin B j :=
          congrArg AngularBin.thetaMin (Option.some.inj hsome)
        have hjj : j' = j := (logBinLeftEdge_strictMono tmin B hB).injective hedge
        subst hjj
        exact ⟨hc.1, hc.2⟩
      · rw [if_neg hc] at hsome
        cases hsome
    · intro h
      have hjJ : j < J := by
        by_contra hge
        push_neg at hge
        have hmono := (logBinLeftEdge_strictMono tmin B hB).monotone hge
        exact absurd (lt_of_lt_of_le h.2 (le_trans hstop.2 hmono)) (lt_irrefl _)
      rw [logBins, List.mem_filterMap]
      exact ⟨j, List.mem_range.mpr hjJ, by rw [if_pos ⟨h.1, h.2⟩]⟩
  · intro j
    refine ⟨?_, ?_, mkLogBin_theta tmin B j⟩
    · rw [mkLogBin_thetaMin]
      unfold logBinLeftEdge
      congr 1
      field_simp
    · rw [mkLogBin_thetaMax, mkLogBin_thetaMin, logBinLeftEdge_succ tmin B (ne_of_gt hB)]
  · rw [logBins_concrete_eq, List.length_map, List.length_range]
  · intro b hb
    rw [logBins_concrete_eq, List.mem_map] at hb
    obtain ⟨j, hj, rfl⟩ := hb
    rw [List.mem_range] at hj
    constructor
    · rw [mkLogBin_thetaMin]
      unfold logBinLeftEdge
      rw [floor_logb_concrete, rpow_neg_three,
        Real.rpow_le_rpow_left_iff (by norm_num : (1 : ℝ) < 10),
        le_div_iff (by norm_num : (0 : ℝ) < 6)]
      have : (0 : ℝ) ≤ (j : ℝ) := Nat.cast_nonneg j
      push_cast
      linarith
    · have hmax : (mkLogBin 0.001 6 j).thetaMax ≤ 10 := by
        rw [mkLogBin_thetaMax]
        unfold logBinLeftEdge
        rw [floor_logb_concrete]
        calc (10 : ℝ) ^ ((((-3 : ℤ) : ℝ) * 6 + ((j + 1 : ℕ) : ℝ)) / 6) ≤ (10 : ℝ) ^ (1 : ℝ) := by
              rw [Real.rpow_le_rpow_left_iff (by norm_num : (1 : ℝ) < 10),
                div_le_one (by norm_num : (0 : ℝ) < 6)]
              have : ((j + 1 : ℕ) : ℝ) ≤ 24 := by exact_mod_cast hj
              push_cast at this ⊢
              linarith
          _ = 10 := Real.rpow_one 10
      have hone : (1 : ℝ) < (10 : ℝ) ^ ((1 : ℝ) / 6) := by
        rw [show (1 : ℝ) = (10 : ℝ) ^ (0 : ℝ) by rw [Real.rpow_zero]]
        rw [Real.rpow_lt_rpow_left_iff (by norm_num : (1 : ℝ) < 10)]
        norm_num
      calc (mkLogBin 0.001 6 j).thetaMax ≤ 10 := hmax
        _ < 10 * (10 : ℝ) ^ ((1 : ℝ) / 6) := by nlinarith

/-- Witness for C5: the theorem applied to the concrete binning
`(0.001, 10, 6)` with the loop stopping after `24` steps. -/
theorem C5_witness :
    (0 : ℝ) < 0.001 ∧ (0 : ℝ) < 6 ∧ logLoopStopsAt 0.001 10 6 24 ∧
      (logBins 0.001 10 6 24).length = 24 :=
  ⟨by norm_num, by norm_num, logStops_concrete,
    (C5_theorem 0.001 10 6 24 (by norm_num) (by norm_num) logStops_concrete).2.2.2.1⟩

end Stomp
